import Mathlib

/-!
Shallow embedding of the optiweb batch image pipeline (src/optiweb.js) and
proofs about its per-file policy: ignore filtering, skip-existing, WebP
shadowing, slugification, multi-size fan-out naming, and the run statistics.
External collaborators (filesystem, micromatch, the sharp codec) are modelled
as pure oracles in `Env`; all pixel work is outside the model, only its
success/failure and the produced byte sizes are visible to the policy code.
-/

set_option maxRecDepth 8000

namespace Optiweb

/-- Model of the JavaScript regex class `\s` (ECMAScript WhiteSpace plus
LineTerminator), the set used both by `.replace` with a whitespace-run
pattern and by `String.prototype.trim`. -/
def isJsSpace (c : Char) : Bool :=
  let n := c.toNat
  n == 9 || n == 10 || n == 11 || n == 12 || n == 13 || n == 32 || n == 160 ||
  n == 0x1680 || (decide (0x2000 ≤ n) && decide (n ≤ 0x200a)) || n == 0x2028 ||
  n == 0x2029 || n == 0x202f || n == 0x205f || n == 0x3000 || n == 0xfeff

/-- Model of the JavaScript regex class `\w`, that is `[A-Za-z0-9_]`. -/
def isWordChar (c : Char) : Bool :=
  (decide (65 ≤ c.toNat) && decide (c.toNat ≤ 90)) ||
  (decide (97 ≤ c.toNat) && decide (c.toNat ≤ 122)) ||
  (decide (48 ≤ c.toNat) && decide (c.toNat ≤ 57)) || c == '_'

/-- Model of JavaScript `String.prototype.toLowerCase` at the character level,
restricted to ASCII. This is the only case mapping this code can observe:
every character a slug keeps is ASCII. -/
def jsToLower (c : Char) : Char :=
  if 65 ≤ c.toNat ∧ c.toNat ≤ 90 then Char.ofNat (c.toNat + 32) else c

/-- Replace every maximal run of characters satisfying `p` by the single
character `r`; models the two global run-collapsing regex replaces in
`slugifyFilename` (src/optiweb.js:413-414). -/
def collapseRuns (p : Char → Bool) (r : Char) : List Char → List Char
  | [] => []
  | [c] => if p c then [r] else [c]
  | c :: d :: cs =>
    if p c then
      (if p d then collapseRuns p r (d :: cs) else r :: collapseRuns p r (d :: cs))
    else c :: collapseRuns p r (d :: cs)

/-- Drop the longest suffix of characters satisfying `p`. -/
def dropTrailing (p : Char → Bool) (l : List Char) : List Char :=
  (l.reverse.dropWhile p).reverse

/-- Model of JavaScript `String.prototype.trim` on a character list
(src/optiweb.js:415). -/
def trimJs (l : List Char) : List Char :=
  dropTrailing isJsSpace (l.dropWhile isJsSpace)

/-- Model of the edge-hyphen strip in `slugifyFilename` (src/optiweb.js:416):
remove the leading run and the trailing run of hyphens. -/
def stripEdgeHyphens (l : List Char) : List Char :=
  dropTrailing (fun c => c == '-') (l.dropWhile (fun c => c == '-'))

/-- The character class kept by the special-character strip in
`slugifyFilename` (src/optiweb.js:412), the complement of `[^\w\s-]`. -/
def keepChar (c : Char) : Bool := isWordChar c || isJsSpace c || c == '-'

/-- The stem transformation of `slugifyFilename` (src/optiweb.js:410-416):
lower-case, strip characters outside the kept class, collapse whitespace runs
to a hyphen, collapse hyphen runs, trim, strip edge hyphens. -/
def slugCore (name : List Char) : List Char :=
  stripEdgeHyphens (trimJs (collapseRuns (fun c => c == '-') '-'
    (collapseRuns isJsSpace '-' ((name.map jsToLower).filter keepChar))))

/-- Split a filename at its last dot, modelling `filename.lastIndexOf('.')`
and the two slices in `slugifyFilename` (src/optiweb.js:405-407): the part
before the last dot, and the extension from the dot to the end; a name
without a dot has an empty extension. -/
def splitExtAux (l : List Char) : List Char × List Char :=
  match l.reverse.dropWhile (fun c => !(c == '.')) with
  | [] => (l, [])
  | _ :: revName =>
    (revName.reverse, '.' :: (l.reverse.takeWhile (fun c => !(c == '.'))).reverse)

/-- Model of `slugifyFilename` (src/optiweb.js:403-420): slug the stem,
reattach the extension unchanged. -/
def slugifyFilename (s : String) : String :=
  match splitExtAux s.data with
  | (n, e) => ⟨slugCore n ++ e⟩

/-- Model of Node `path.basename(p)` for the slash-separated relative paths
produced by glob (which have no trailing slashes). -/
def basenameList (l : List Char) : List Char :=
  match l.reverse.dropWhile (fun c => !(c == '/')) with
  | [] => l
  | _ :: _ => (l.reverse.takeWhile (fun c => !(c == '/'))).reverse

/-- String wrapper of `basenameList`. -/
def basename (s : String) : String := ⟨basenameList s.data⟩

/-- Model of Node `path.dirname(p)` for such paths. -/
def dirname (s : String) : String :=
  match s.data.reverse.dropWhile (fun c => !(c == '/')) with
  | [] => "."
  | _ :: revDir => if revDir.isEmpty then "/" else ⟨revDir.reverse⟩

/-- Model of Node `path.extname(p)`: the extension of the basename, empty when
there is no dot, when the only dot leads the basename, or for `..`. -/
def extname (s : String) : String :=
  let b := basenameList s.data
  if b == ['.', '.'] then ""
  else
    match splitExtAux b with
    | (nm, e) => if nm.isEmpty then "" else ⟨e⟩

/-- Model of the two-argument Node `path.basename(p, ext)` (used at
src/optiweb.js:51 and 111): the basename, with `ext` stripped when it is a
proper suffix of it. -/
def basenameExt (s ext : String) : String :=
  let b := basenameList s.data
  if b == ext.data then ⟨b⟩
  else if ext.data.isSuffixOf b then ⟨b.take (b.length - ext.data.length)⟩
  else ⟨b⟩

/-- ASCII lower-casing of a whole string. -/
def lowerStr (s : String) : String := ⟨s.data.map jsToLower⟩

/-- Model of Node `path.join(a, b)` for the paths this program builds:
concatenate with a slash and drop empty and `.` segments (the inputs never
contain `..` segments). -/
def joinPath (a b : String) : String :=
  let segs := ((a.data ++ '/' :: b.data).splitOn '/').filter
    (fun seg => !(seg.isEmpty) && !(seg == ['.']))
  if segs.isEmpty then "." else ⟨List.intercalate ['/'] segs⟩

/-- Model of JavaScript `String.prototype.replace` with a plain string
pattern: replace only the first occurrence (src/optiweb.js:240). -/
def replaceFirst : List Char → List Char → List Char → List Char
  | [], pat, rep => if pat.isEmpty then rep else []
  | c :: cs, pat, rep =>
    if pat.isPrefixOf (c :: cs) then rep ++ (c :: cs).drop pat.length
    else c :: replaceFirst cs pat rep

/-- The `options.resize` object built by the CLI (src/index.js); the record
mirrors the duck-typed object, whose populated fields depend on which resize
flags were given. -/
structure ResizeOpts where
  sizes : Option (List Nat) := none
  suffixPattern : Option String := none
  mode : Option String := none
  width : Option Nat := none
  height : Option Nat := none
  maxWidth : Option Nat := none
  maxHeight : Option Nat := none
deriving DecidableEq

/-- The run options handed to `processDirectory` by the CLI (src/index.js). -/
structure Options where
  webp : Bool := false
  skipExisting : Bool := false
  slug : Bool := false
  onlyResize : Bool := false
  verbose : Bool := false
  ignorePatterns : List String := []
  resize : Option ResizeOpts := none
  jpgQuality : Nat := 85
  pngQuality : Nat := 85
  webpLossless : Bool := false
  webpNearLossless : Bool := false
deriving DecidableEq

/-- The `results` accumulator of `processDirectory` (src/optiweb.js:56-67). -/
structure Results where
  totalFiles : Nat := 0
  optimizedImages : Nat := 0
  resizedImages : Nat := 0
  multiSizeImages : Nat := 0
  copiedFiles : Nat := 0
  skippedImages : Nat := 0
  ignoredFiles : Nat := 0
  totalSize : Nat := 0
  totalSaved : Int := 0
  errors : List (String × String) := []
deriving DecidableEq

/-- External collaborators as pure oracles: `mmatch pat f` is micromatch on
one pattern; `statSize` is `fs.stat` on an input path and `statOut` on an
output path (`none` models a thrown error); `outExists` is `fs.existsSync`
over the pre-run output tree; `metadataOk` is `sharp(input).metadata()`
succeeding; `writeOk input output` is the decode/resize/encode/`toFile`
chain succeeding; `copyOk` is `fs.copy` succeeding; `errMsg` gives the
thrown error's message for a file. -/
structure Env where
  mmatch : String → String → Bool
  statSize : String → Option Nat
  outExists : String → Bool
  metadataOk : String → Bool
  writeOk : String → String → Bool
  statOut : String → Option Nat
  copyOk : String → String → Bool
  errMsg : String → String

/-- The argument record the code passes to sharp's resize for each
multi-size variant (src/optiweb.js:254-260). -/
structure ResizeRequest where
  width : Nat
  height : Option Nat
  fit : String
  position : String
  withoutEnlargement : Bool
deriving DecidableEq

/-- The literal substitution token looked up in the suffix pattern. -/
def widthToken : String := "\x7bwidth\x7d"

/-- The defaulted suffix pattern (src/optiweb.js:239); JavaScript `||`
also replaces an empty-string pattern by the default. -/
def msSuffixPattern (rz : ResizeOpts) : String :=
  match rz.suffixPattern with
  | some p => if p == "" then "-" ++ widthToken else p
  | none => "-" ++ widthToken

/-- The defaulted fit mode (src/optiweb.js:257). -/
def msFitMode (rz : ResizeOpts) : String :=
  match rz.mode with
  | some m => if m == "" then "cover" else m
  | none => "cover"

/-- The sharp resize request built for one target width
(src/optiweb.js:254-260): height left free, centered, and enlargement
past the original width forbidden. -/
def msResizeRequest (rz : ResizeOpts) (size : Nat) : ResizeRequest :=
  { width := size, height := none, fit := msFitMode rz, position := "center",
    withoutEnlargement := true }

/-- Output file name of one multi-size variant (src/optiweb.js:238-251):
base name, suffix pattern with the width substituted, and the original or
`.webp` extension. -/
def msOutputName (opts : Options) (rz : ResizeOpts) (baseNameToUse ext : String) (size : Nat) : String :=
  baseNameToUse ++ ⟨replaceFirst (msSuffixPattern rz).data widthToken.data (toString size).data⟩ ++
    (if opts.webp then ".webp" else ext)

/-- The per-size loop of `processMultiSizeImage` (src/optiweb.js:237-304):
returns `(optimizedCount, totalSaved)`, or `none` when a size's
resize/encode/write or output stat throws (discarding the partial tallies,
exactly as the exception unwinding does). In only-resize mode nothing is
counted. Each per-size delta is clamped to at least zero. -/
def msLoop (env : Env) (opts : Options) (rz : ResizeOpts) (inputFile outDirAbs baseNameToUse ext : String) (origSize : Nat) : List Nat → Option (Nat × Int)
  | [] => some (0, 0)
  | size :: rest =>
    let outputPath := joinPath outDirAbs (msOutputName opts rz baseNameToUse ext size)
    if env.writeOk inputFile outputPath then
      if opts.onlyResize then
        msLoop env opts rz inputFile outDirAbs baseNameToUse ext origSize rest
      else
        match env.statOut outputPath with
        | none => none
        | some osz =>
          match msLoop env opts rz inputFile outDirAbs baseNameToUse ext origSize rest with
          | none => none
          | some (c, t) => some (c + 1, max 0 ((origSize : Int) - (osz : Int)) + t)
    else none

/-- Model of `processMultiSizeImage` (src/optiweb.js:217-307). The slugified
base name parameter is `none` unless slugging is on; JavaScript `||` falls
back to `baseName` when it is null or empty. -/
def processMultiSize (env : Env) (opts : Options) (rz : ResizeOpts) (sizes : List Nat) (inputFile outDirAbs baseName ext : String) (slugBase : Option String) : Option (Nat × Int) :=
  if env.metadataOk inputFile then
    match env.statSize inputFile with
    | none => none
    | some origSize =>
      let baseNameToUse :=
        match slugBase with
        | some s => if s == "" then baseName else s
        | none => baseName
      msLoop env opts rz inputFile outDirAbs baseNameToUse ext origSize sizes
  else none

/-- The output-relative name of a candidate: the slugified basename when
slugging is on, the relative path itself otherwise (src/optiweb.js:77-88). -/
def outputFileNameOf (opts : Options) (file : String) : String :=
  if opts.slug then
    let dirName := dirname file
    let slugified := slugifyFilename (basename file)
    if dirName == "." then slugified else joinPath dirName slugified
  else file

/-- Destination of the single-file optimize path: the mirrored output path,
or the `.webp`-renamed path when conversion is on (src/optiweb.js:149-158). -/
def singleOutputPath (opts : Options) (outputFile absOutDir baseName : String) : String :=
  if opts.webp then
    joinPath absOutDir
      ((if opts.slug then basename (slugifyFilename baseName) else baseName) ++ ".webp")
  else outputFile

/-- Extensions treated as optimizable images (src/optiweb.js:113). -/
def jpgPngExts : List String := [".jpg", ".jpeg", ".png"]

/-- The single-file optimize branch (src/optiweb.js:148-176). Note the
source increments `optimizedImages` (and `resizedImages`) before it stats
the output, so a failing output stat leaves them incremented and appends an
error record; the saved delta is the raw difference, with no clamp. -/
def singleOptimize (env : Env) (opts : Options) (r : Results) (file inputFile outputFile absOutDir baseName : String) (sz : Nat) : Results :=
  let outputFilePath := singleOutputPath opts outputFile absOutDir baseName
  if env.writeOk inputFile outputFilePath then
    let r2 := { r with optimizedImages := r.optimizedImages + 1,
                       resizedImages := r.resizedImages + (if opts.resize.isSome then 1 else 0) }
    match env.statOut outputFilePath with
    | none => { r2 with errors := r2.errors ++ [(file, env.errMsg file)] }
    | some osz => { r2 with totalSaved := r2.totalSaved + ((sz : Int) - (osz : Int)) }
  else { r with errors := r.errors ++ [(file, env.errMsg file)] }

/-- The body of the per-file loop of `processDirectory`
(src/optiweb.js:70-191) as one step on the `Results` accumulator. The
try/catch around the body is modelled by the error branches: any failing
oracle appends one `(file, message)` record and the step returns. -/
def processOne (env : Env) (opts : Options) (inputDir outputDir : String) (webpBaseNames : List String) (r : Results) (file : String) : Results :=
  let inputFile := joinPath inputDir file
  let absOutDir := joinPath outputDir (dirname file)
  let outputFile := joinPath outputDir (outputFileNameOf opts file)
  match env.statSize inputFile with
  | none => { r with errors := r.errors ++ [(file, env.errMsg file)] }
  | some sz =>
    let r1 := { r with totalSize := r.totalSize + sz }
    if opts.skipExisting && env.outExists outputFile then r1
    else
      let ext := lowerStr (extname file)
      let baseName := basenameExt file ext
      if jpgPngExts.contains ext then
        if webpBaseNames.contains baseName then
          { r1 with skippedImages := r1.skippedImages + 1 }
        else
          match opts.resize with
          | some rz =>
            match rz.sizes with
            | some sizes =>
              match processMultiSize env opts rz sizes inputFile absOutDir baseName ext
                  (if opts.slug then some (slugifyFilename baseName) else none) with
              | none => { r1 with errors := r1.errors ++ [(file, env.errMsg file)] }
              | some (cnt, saved) =>
                { r1 with multiSizeImages := r1.multiSizeImages + 1,
                          optimizedImages := r1.optimizedImages + cnt,
                          totalSaved := r1.totalSaved + saved }
            | none => singleOptimize env opts r1 file inputFile outputFile absOutDir baseName sz
          | none => singleOptimize env opts r1 file inputFile outputFile absOutDir baseName sz
      else
        if env.copyOk inputFile outputFile then
          { r1 with copiedFiles := r1.copiedFiles + 1 }
        else { r1 with errors := r1.errors ++ [(file, env.errMsg file)] }

/-- Whether a path matches any of the configured ignore patterns (micromatch
against the pattern set). -/
def matchesAny (env : Env) (opts : Options) (f : String) : Bool :=
  opts.ignorePatterns.any (fun p => env.mmatch p f)

/-- Files matching an ignore pattern (src/optiweb.js:35-37): the whole
listing matched against the pattern set, applied only when patterns were
given. -/
def ignoredList (env : Env) (opts : Options) (allFiles : List String) : List String :=
  if opts.ignorePatterns.isEmpty then []
  else allFiles.filter (matchesAny env opts)

/-- The candidate list after ignore filtering (src/optiweb.js:33-37). -/
def filesList (env : Env) (opts : Options) (allFiles : List String) : List String :=
  if opts.ignorePatterns.isEmpty then allFiles
  else allFiles.filter (fun f => !((ignoredList env opts allFiles).contains f))

/-- Extension-stripped base names of the `.webp` candidates
(src/optiweb.js:50-51). `path.basename(f, '.webp')` drops the directory, so
this set is global to the run, not per directory. -/
def webpBaseNamesOf (files : List String) : List String :=
  (files.filter (fun f => lowerStr (extname f) == ".webp")).map
    (fun f => basenameExt f ".webp")

/-- The result accumulator's initial value (src/optiweb.js:56-67). -/
def initResults (files ignored : List String) : Results :=
  { totalFiles := files.length, optimizedImages := 0, resizedImages := 0,
    multiSizeImages := 0, copiedFiles := 0, skippedImages := 0,
    ignoredFiles := ignored.length, totalSize := 0, totalSaved := 0, errors := [] }

/-- Model of `processDirectory` (src/optiweb.js:16-207). The input-directory
existence check, the `ensureDir` calls and the spinner are I/O effects
outside the model; `allFiles` is the glob listing of the input root, and
`Env.outExists` reflects the pre-run output tree. -/
def processDirectory (env : Env) (opts : Options) (inputDir outputDir : String) (allFiles : List String) : Results :=
  let ignored := ignoredList env opts allFiles
  let files := filesList env opts allFiles
  files.foldl (processOne env opts inputDir outputDir (webpBaseNamesOf files))
    (initResults files ignored)

/-- The sibling-WebP condition in the words of the specification: a `.webp`
candidate in the same directory with the same extension-stripped base name.
Written from the claim, to be compared with what the code computes. -/
def claimSiblingWebp (files : List String) (f : String) : Bool :=
  files.any (fun w =>
    lowerStr (extname w) == ".webp" && dirname w == dirname f &&
    basenameExt w ".webp" == basenameExt f (lowerStr (extname f)))

/-- An all-succeeding oracle environment with fixed sizes, the base of the
concrete runs below. -/
def envOk : Env :=
  { mmatch := fun _ _ => false, statSize := fun _ => some 10,
    outExists := fun _ => false, metadataOk := fun _ => true,
    writeOk := fun _ _ => true, statOut := fun _ => some 5,
    copyOk := fun _ _ => true, errMsg := fun _ => "error" }

/-- Options with every flag off and no resize. -/
def opts0 : Options := {}

/-- Environment whose optimized outputs are larger than their inputs. -/
def envGrow : Env := { envOk with statOut := fun _ => some 25 }

/-- Options for the skip-existing-with-conversion run. -/
def optsWebpSkip : Options := { webp := true, skipExisting := true }

/-- Environment where only the converted `.webp` destination exists. -/
def envWebpOut : Env :=
  { envOk with outExists := fun p => p == "out/photo.webp", statOut := fun _ => some 4 }

/-- Environment where the write of the third candidate fails. -/
def envOneBad : Env := { envOk with writeOk := fun i _ => !(i == "in/f3.jpg") }

/-- Ten jpeg candidates, of which `envOneBad` corrupts the fourth. -/
def tenFiles : List String :=
  ["f0.jpg", "f1.jpg", "f2.jpg", "f3.jpg", "f4.jpg",
   "f5.jpg", "f6.jpg", "f7.jpg", "f8.jpg", "f9.jpg"]

/-- Options with only skip-existing on. -/
def optsSkip : Options := { skipExisting := true }

/-- Environment where the destination of `a.jpg` already exists. -/
def envAOut : Env :=
  { envOk with outExists := fun p => p == "out/a.jpg",
               statSize := fun _ => some 7, statOut := fun _ => some 3 }

/-- The multi-size spec of the fan-out claim. -/
def rzFan : ResizeOpts :=
  { sizes := some [200, 400, 800], suffixPattern := some ("-" ++ widthToken),
    mode := some "cover" }

/-- Options with only conversion on. -/
def optsWebp : Options := { webp := true }

/-- A jpeg and a webp with equal base names in different directories. -/
def crossDirFiles : List String := ["a/logo.jpg", "b/logo.webp"]

/-- A one-element multi-size spec used by the clamped-savings witness. -/
def rzOne : ResizeOpts := { sizes := some [100] }

/-- Options running the fan-out spec. -/
def optsFan : Options := { resize := some rzFan }

/-- Environment whose matcher accepts everything and whose output tree is
fully populated. -/
def envMatch : Env :=
  { envOk with mmatch := fun _ _ => true, outExists := fun _ => true }

/-- Options with one ignore pattern and skip-existing on. -/
def optsIgn : Options := { skipExisting := true, ignorePatterns := ["*.jpg"] }

/-- The data of a packed string is the packed list. -/
@[simp] theorem data_mk (l : List Char) : (String.mk l).data = l := rfl

/-- A valid code point round-trips through `Char.ofNat`. -/
theorem toNat_ofNat_valid (n : Nat) (h : n < 55296) : (Char.ofNat n).toNat = n := by
  unfold Char.ofNat
  rw [dif_pos (Or.inl h)]
  simp [Char.ofNatAux, Char.toNat, UInt32.toNat, UInt32.ofNatCore]

/-- Character-level lower-casing is idempotent. -/
theorem jsToLower_idem (c : Char) : jsToLower (jsToLower c) = jsToLower c := by
  by_cases h : 65 ≤ c.toNat ∧ c.toNat ≤ 90
  · have h2 : (jsToLower c).toNat = c.toNat + 32 := by
      rw [jsToLower, if_pos h, toNat_ofNat_valid (c.toNat + 32) (by omega)]
    have h3 : ¬(65 ≤ (jsToLower c).toNat ∧ (jsToLower c).toNat ≤ 90) := by
      rw [h2]; omega
    conv_lhs => rw [jsToLower]
    rw [if_neg h3]
  · have h0 : jsToLower c = c := by rw [jsToLower, if_neg h]
    simp only [h0]

/-- Unfolding of `collapseRuns` on a head not satisfying the predicate. -/
theorem collapseRuns_cons_neg (p : Char → Bool) (r a : Char) (cs : List Char)
    (ha : p a = false) : collapseRuns p r (a :: cs) = a :: collapseRuns p r cs := by
  cases cs with
  | nil => simp [collapseRuns, ha]
  | cons d cs2 => simp [collapseRuns, ha]

/-- Unfolding of `collapseRuns` inside a run. -/
theorem collapseRuns_cons2_pos_pos (p : Char → Bool) (r a d : Char) (cs : List Char)
    (ha : p a = true) (hd : p d = true) :
    collapseRuns p r (a :: d :: cs) = collapseRuns p r (d :: cs) := by
  simp [collapseRuns, ha, hd]

/-- Unfolding of `collapseRuns` at the end of a run. -/
theorem collapseRuns_cons2_pos_neg (p : Char → Bool) (r a d : Char) (cs : List Char)
    (ha : p a = true) (hd : p d = false) :
    collapseRuns p r (a :: d :: cs) = r :: collapseRuns p r (d :: cs) := by
  simp [collapseRuns, ha, hd]

/-- Every character of a collapsed list is the replacement or an original
character not in any run. -/
theorem mem_collapseRuns {p : Char → Bool} {r : Char} {l : List Char} {c : Char}
    (hc : c ∈ collapseRuns p r l) : c = r ∨ (c ∈ l ∧ p c = false) := by
  induction l with
  | nil => simp [collapseRuns] at hc
  | cons a cs ih =>
    cases cs with
    | nil =>
      by_cases ha : p a = true
      · simp [collapseRuns, ha] at hc
        exact Or.inl hc
      · rw [Bool.not_eq_true] at ha
        simp [collapseRuns, ha] at hc
        exact Or.inr ⟨by rw [hc]; exact List.mem_singleton_self a, by rw [hc]; exact ha⟩
    | cons d cs2 =>
      by_cases ha : p a = true
      · by_cases hd : p d = true
        · rw [collapseRuns_cons2_pos_pos p r a d cs2 ha hd] at hc
          rcases ih hc with h | ⟨h1, h2⟩
          · exact Or.inl h
          · exact Or.inr ⟨List.mem_cons_of_mem a h1, h2⟩
        · rw [Bool.not_eq_true] at hd
          rw [collapseRuns_cons2_pos_neg p r a d cs2 ha hd] at hc
          rcases List.mem_cons.mp hc with h | h
          · exact Or.inl h
          · rcases ih h with h2 | ⟨h3, h4⟩
            · exact Or.inl h2
            · exact Or.inr ⟨List.mem_cons_of_mem a h3, h4⟩
      · rw [Bool.not_eq_true] at ha
        rw [collapseRuns_cons_neg p r a (d :: cs2) ha] at hc
        rcases List.mem_cons.mp hc with h | h
        · exact Or.inr ⟨by rw [h]; exact List.mem_cons_self a _, by rw [h]; exact ha⟩
        · rcases ih h with h2 | ⟨h3, h4⟩
          · exact Or.inl h2
          · exact Or.inr ⟨List.mem_cons_of_mem a h3, h4⟩

/-- A list with no character in any run collapses to itself. -/
theorem collapseRuns_eq_self (p : Char → Bool) (r : Char) (l : List Char)
    (h : ∀ c ∈ l, p c = false) : collapseRuns p r l = l := by
  induction l with
  | nil => rfl
  | cons a cs ih =>
    rw [collapseRuns_cons_neg p r a cs (h a (List.mem_cons_self a cs)),
        ih (fun c hc => h c (List.mem_cons_of_mem a hc))]

/-- No two adjacent characters of a collapsed list both satisfy the
predicate. -/
theorem chain_collapseRuns (p : Char → Bool) (r : Char) (l : List Char) :
    List.Chain' (fun a b => p a = false ∨ p b = false) (collapseRuns p r l) := by
  induction l with
  | nil => simp [collapseRuns]
  | cons a cs ih =>
    cases cs with
    | nil =>
      by_cases ha : p a = true
      · simp [collapseRuns, ha]
      · simp [collapseRuns, ha]
    | cons d cs2 =>
      by_cases ha : p a = true
      · by_cases hd : p d = true
        · rw [collapseRuns_cons2_pos_pos p r a d cs2 ha hd]
          exact ih
        · rw [Bool.not_eq_true] at hd
          rw [collapseRuns_cons2_pos_neg p r a d cs2 ha hd,
              collapseRuns_cons_neg p r d cs2 hd]
          rw [collapseRuns_cons_neg p r d cs2 hd] at ih
          exact List.chain'_cons'.mpr
            ⟨fun y hy => by simp at hy; subst hy; exact Or.inr hd, ih⟩
      · rw [Bool.not_eq_true] at ha
        rw [collapseRuns_cons_neg p r a (d :: cs2) ha]
        exact List.chain'_cons'.mpr ⟨fun _ _ => Or.inl ha, ih⟩

/-- Collapsing is the identity on a list whose run characters are already the
replacement and isolated. -/
theorem collapseRuns_eq_self_of_sparse (p : Char → Bool) (r : Char) (l : List Char)
    (hv : ∀ c ∈ l, p c = true → c = r)
    (hch : List.Chain' (fun a b => p a = false ∨ p b = false) l) :
    collapseRuns p r l = l := by
  induction l with
  | nil => rfl
  | cons a cs ih =>
    cases cs with
    | nil =>
      by_cases ha : p a = true
      · have hr := hv a (List.mem_cons_self a []) ha
        simp [collapseRuns, ha, hr]
      · rw [Bool.not_eq_true] at ha
        simp [collapseRuns, ha]
    | cons d cs2 =>
      rcases List.chain'_cons'.mp hch with ⟨hrel, hch2⟩
      by_cases ha : p a = true
      · have hd : p d = false := by
          rcases hrel d (by simp) with h | h
          · exact absurd ha (by simp [h])
          · exact h
        rw [collapseRuns_cons2_pos_neg p r a d cs2 ha hd,
            hv a (List.mem_cons_self a _) ha]
        congr 1
        exact ih (fun c hc hp => hv c (List.mem_cons_of_mem a hc) hp) hch2
      · rw [Bool.not_eq_true] at ha
        rw [collapseRuns_cons_neg p r a (d :: cs2) ha]
        congr 1
        exact ih (fun c hc hp => hv c (List.mem_cons_of_mem a hc) hp) hch2

/-- Dropping from a list with no satisfying character is the identity. -/
theorem dropWhile_all (p : Char → Bool) (l : List Char)
    (h : ∀ c ∈ l, p c = false) : l.dropWhile p = l := by
  cases l with
  | nil => rfl
  | cons a cs =>
    rw [List.dropWhile_cons, if_neg (by simp [h a (List.mem_cons_self a cs)])]

/-- The head surviving a `dropWhile` does not satisfy the predicate. -/
theorem dropWhile_head_false (p : Char → Bool) {l : List Char} {c : Char} {cs : List Char}
    (h : l.dropWhile p = c :: cs) : p c = false := by
  induction l with
  | nil => simp at h
  | cons a t ih =>
    rw [List.dropWhile_cons] at h
    by_cases ha : p a = true
    · rw [if_pos ha] at h
      exact ih h
    · rw [if_neg ha] at h
      injection h with h1 _
      subst h1
      rw [Bool.not_eq_true] at ha
      exact ha

/-- Dropping past an all-satisfying block continues in the remainder. -/
theorem dropWhile_append_all (p : Char → Bool) (xs ys : List Char)
    (h : ∀ c ∈ xs, p c = true) : (xs ++ ys).dropWhile p = ys.dropWhile p := by
  induction xs with
  | nil => rfl
  | cons a t ih =>
    rw [List.cons_append, List.dropWhile_cons, if_pos (h a (List.mem_cons_self a t))]
    exact ih (fun c hc => h c (List.mem_cons_of_mem a hc))

/-- Taking an all-satisfying block stops exactly at the first failure. -/
theorem takeWhile_append_stop (p : Char → Bool) (xs ys : List Char) (y : Char)
    (h : ∀ c ∈ xs, p c = true) (hy : p y = false) :
    (xs ++ y :: ys).takeWhile p = xs := by
  induction xs with
  | nil => rw [List.nil_append, List.takeWhile_cons, if_neg (by simp [hy])]
  | cons a t ih =>
    rw [List.cons_append, List.takeWhile_cons, if_pos (h a (List.mem_cons_self a t)),
        ih (fun c hc => h c (List.mem_cons_of_mem a hc))]

/-- `dropTrailing` yields a prefix. -/
theorem dropTrailing_prefixOf (p : Char → Bool) (l : List Char) : dropTrailing p l <+: l := by
  rw [← List.reverse_suffix]
  unfold dropTrailing
  rw [List.reverse_reverse]
  exact List.dropWhile_suffix p

/-- `dropTrailing` on a list with no satisfying character is the identity. -/
theorem dropTrailing_all (p : Char → Bool) (l : List Char)
    (h : ∀ c ∈ l, p c = false) : dropTrailing p l = l := by
  unfold dropTrailing
  rw [dropWhile_all p l.reverse (fun c hc => h c (List.mem_reverse.mp hc)),
      List.reverse_reverse]

/-- Membership survives `dropTrailing` backwards. -/
theorem mem_of_mem_dropTrailing {p : Char → Bool} {l : List Char} {c : Char}
    (hc : c ∈ dropTrailing p l) : c ∈ l :=
  List.Sublist.mem hc (List.IsPrefix.sublist (dropTrailing_prefixOf p l))

/-- Membership survives `dropWhile` backwards. -/
theorem mem_of_mem_dropWhile {p : Char → Bool} {l : List Char} {c : Char}
    (hc : c ∈ l.dropWhile p) : c ∈ l :=
  List.IsSuffix.mem hc (List.dropWhile_suffix p)

/-- Trimming a list with no whitespace is the identity. -/
theorem trimJs_all (l : List Char) (h : ∀ c ∈ l, isJsSpace c = false) :
    trimJs l = l := by
  unfold trimJs
  rw [dropWhile_all isJsSpace l h, dropTrailing_all isJsSpace l h]

/-- Membership survives trimming backwards. -/
theorem mem_trimJs {l : List Char} {c : Char} (hc : c ∈ trimJs l) : c ∈ l :=
  mem_of_mem_dropWhile (mem_of_mem_dropTrailing hc)

/-- Membership survives the edge-hyphen strip backwards. -/
theorem mem_stripEdgeHyphens {l : List Char} {c : Char}
    (hc : c ∈ stripEdgeHyphens l) : c ∈ l :=
  mem_of_mem_dropWhile (mem_of_mem_dropTrailing hc)

/-- Every character of a slug stem is a hyphen or a kept, non-whitespace
character of the lower-cased input. -/
theorem slugCore_chars {n : List Char} {c : Char} (hc : c ∈ slugCore n) :
    c = '-' ∨ (c ∈ (n.map jsToLower).filter keepChar ∧ isJsSpace c = false) := by
  unfold slugCore at hc
  have h4 := mem_trimJs (mem_stripEdgeHyphens hc)
  rcases mem_collapseRuns h4 with h | ⟨h3, _⟩
  · exact Or.inl h
  · rcases mem_collapseRuns h3 with h | ⟨h2, hsp⟩
    · exact Or.inl h
    · exact Or.inr ⟨h2, hsp⟩

/-- Slug-stem characters are in the kept class. -/
theorem slugCore_keep {n : List Char} {c : Char} (hc : c ∈ slugCore n) :
    keepChar c = true := by
  rcases slugCore_chars hc with h | ⟨h2, _⟩
  · subst h; decide
  · exact (List.mem_filter.mp h2).2

/-- Slug-stem characters are not whitespace. -/
theorem slugCore_no_space {n : List Char} {c : Char} (hc : c ∈ slugCore n) :
    isJsSpace c = false := by
  rcases slugCore_chars hc with h | ⟨_, h2⟩
  · subst h; decide
  · exact h2

/-- Slug-stem characters are fixed by lower-casing. -/
theorem slugCore_lower_fixed {n : List Char} {c : Char} (hc : c ∈ slugCore n) :
    jsToLower c = c := by
  rcases slugCore_chars hc with h | ⟨h2, _⟩
  · subst h; decide
  · obtain ⟨hm, _⟩ := List.mem_filter.mp h2
    obtain ⟨c0, _, rfl⟩ := List.mem_map.mp hm
    exact jsToLower_idem c0

/-- Slug-stem characters are never dots. -/
theorem slugCore_no_dot {n : List Char} {c : Char} (hc : c ∈ slugCore n) :
    (c == '.') = false := by
  have hk := slugCore_keep hc
  by_cases hb : (c == '.') = true
  · have hcc : c = '.' := by simpa using hb
    subst hcc
    exact absurd hk (by decide)
  · rw [Bool.not_eq_true] at hb
    exact hb

/-- A slug stem has no two adjacent hyphens. -/
theorem slugCore_chain (n : List Char) :
    List.Chain' (fun a b => (a == '-') = false ∨ (b == '-') = false) (slugCore n) := by
  unfold slugCore stripEdgeHyphens trimJs
  apply List.Chain'.prefix _ (dropTrailing_prefixOf _ _)
  apply List.Chain'.suffix _ (List.dropWhile_suffix _)
  apply List.Chain'.prefix _ (dropTrailing_prefixOf _ _)
  apply List.Chain'.suffix _ (List.dropWhile_suffix _)
  exact chain_collapseRuns _ '-' _

/-- A slug stem never starts with a hyphen. -/
theorem slugCore_head {n : List Char} {c : Char} {cs : List Char}
    (h : slugCore n = c :: cs) : (c == '-') = false := by
  unfold slugCore stripEdgeHyphens at h
  have hp := dropTrailing_prefixOf (fun x => x == '-')
    ((trimJs (collapseRuns (fun c => c == '-') '-' (collapseRuns isJsSpace '-'
      ((n.map jsToLower).filter keepChar)))).dropWhile (fun x => x == '-'))
  rw [h] at hp
  rcases hp with ⟨t, ht⟩
  exact dropWhile_head_false (fun x => x == '-') ht.symm

/-- A slug stem never ends with a hyphen. -/
theorem slugCore_last {n : List Char} {c : Char} {cs : List Char}
    (h : (slugCore n).reverse = c :: cs) : (c == '-') = false := by
  unfold slugCore stripEdgeHyphens dropTrailing at h
  rw [List.reverse_reverse] at h
  exact dropWhile_head_false (fun c => c == '-') h

/-- Mapping a function fixing every member is the identity. -/
theorem map_eq_self_of_fixed (f : Char → Char) (l : List Char)
    (h : ∀ c ∈ l, f c = c) : l.map f = l := by
  induction l with
  | nil => rfl
  | cons a cs ih =>
    rw [List.map_cons, h a (List.mem_cons_self a cs),
        ih (fun c hc => h c (List.mem_cons_of_mem a hc))]

/-- The edge-hyphen strip is the identity when neither edge is a hyphen. -/
theorem stripEdgeHyphens_eq_self (l : List Char)
    (hh : ∀ c cs, l = c :: cs → (c == '-') = false)
    (hl : ∀ c cs, l.reverse = c :: cs → (c == '-') = false) :
    stripEdgeHyphens l = l := by
  unfold stripEdgeHyphens
  have h1 : l.dropWhile (fun x => x == '-') = l := by
    cases hcase : l with
    | nil => rfl
    | cons a cs => rw [List.dropWhile_cons, if_neg (by simp [hh a cs hcase])]
  rw [h1]
  unfold dropTrailing
  have h2 : l.reverse.dropWhile (fun x => x == '-') = l.reverse := by
    cases hcase : l.reverse with
    | nil => rfl
    | cons a cs => rw [List.dropWhile_cons, if_neg (by simp [hl a cs hcase])]
  rw [h2, List.reverse_reverse]

/-- The slug stem transformation is idempotent. -/
theorem slugCore_idem (n : List Char) : slugCore (slugCore n) = slugCore n := by
  conv_lhs => rw [slugCore]
  rw [map_eq_self_of_fixed jsToLower (slugCore n) (fun _ hc => slugCore_lower_fixed hc),
      List.filter_eq_self.mpr (fun _ hc => slugCore_keep hc),
      collapseRuns_eq_self isJsSpace '-' (slugCore n) (fun _ hc => slugCore_no_space hc),
      collapseRuns_eq_self_of_sparse (fun c => c == '-') '-' (slugCore n)
        (fun c _ hp => by simpa using hp) (slugCore_chain n),
      trimJs_all (slugCore n) (fun _ hc => slugCore_no_space hc)]
  exact stripEdgeHyphens_eq_self (slugCore n)
    (fun _ _ h => slugCore_head h) (fun _ _ h => slugCore_last h)

/-- A dot-free list splits as a pure stem. -/
theorem splitExtAux_no_dot (l : List Char) (h : ∀ c ∈ l, (c == '.') = false) :
    splitExtAux l = (l, []) := by
  unfold splitExtAux
  have hd : l.reverse.dropWhile (fun c => !(c == '.')) = [] := by
    rw [List.dropWhile_eq_nil_iff]
    intro x hx
    simp [h x (List.mem_reverse.mp hx)]
  rw [hd]

/-- Splitting a stem-dot-tail concatenation recovers the parts when neither
side contains a dot. -/
theorem splitExtAux_append (s t : List Char)
    (ht : ∀ c ∈ t, (c == '.') = false) :
    splitExtAux (s ++ '.' :: t) = (s, '.' :: t) := by
  unfold splitExtAux
  have hrev : (s ++ '.' :: t).reverse = t.reverse ++ '.' :: s.reverse := by
    simp
  have hall : ∀ c ∈ t.reverse, (fun c => !(c == '.')) c = true := by
    intro c hc
    simp [ht c (List.mem_reverse.mp hc)]
  have hdrop : (s ++ '.' :: t).reverse.dropWhile (fun c => !(c == '.')) = '.' :: s.reverse := by
    rw [hrev, dropWhile_append_all _ t.reverse ('.' :: s.reverse) hall,
        List.dropWhile_cons, if_neg (by simp)]
  have htake : (s ++ '.' :: t).reverse.takeWhile (fun c => !(c == '.')) = t.reverse := by
    rw [hrev, takeWhile_append_stop _ t.reverse s.reverse '.' hall (by simp)]
  rw [hdrop]
  simp only [htake, List.reverse_reverse]

/-- Claim C4: applying the filename slugification a second time leaves the
result unchanged — for every string s, slugify (slugify s) = slugify s. -/
theorem slugify_idempotent (s : String) :
    slugifyFilename (slugifyFilename s) = slugifyFilename s := by
  unfold slugifyFilename
  rcases hd : s.data.reverse.dropWhile (fun c => !(c == '.')) with _ | ⟨d, revName⟩
  · have h1 : splitExtAux s.data = (s.data, []) := by
      unfold splitExtAux
      rw [hd]
    rw [h1]
    simp only [data_mk, List.append_nil]
    rw [splitExtAux_no_dot (slugCore s.data) (fun _ hc => slugCore_no_dot hc)]
    simp only [slugCore_idem, List.append_nil]
  · have h1 : splitExtAux s.data =
        (revName.reverse, '.' :: (s.data.reverse.takeWhile (fun c => !(c == '.'))).reverse) := by
      unfold splitExtAux
      rw [hd]
    rw [h1]
    have htno : ∀ c ∈ (s.data.reverse.takeWhile (fun c => !(c == '.'))).reverse,
        (c == '.') = false := by
      intro c hc
      have := List.mem_takeWhile_imp (List.mem_reverse.mp hc)
      simpa using this
    simp only [data_mk]
    rw [splitExtAux_append (slugCore revName.reverse) _ htno]
    simp only [slugCore_idem]

/-- Claim C5: slugification never alters the final extension — on the input
"My Photo.PNG" it returns "my-photo.PNG", keeping the literal suffix ".PNG"
while the stem is lower-cased and its space becomes a hyphen. -/
theorem slugify_preserves_extension : slugifyFilename "My Photo.PNG" = "my-photo.PNG" := by
  decide

/-- A failed input stat appends exactly one error record and touches nothing
else. -/
theorem processOne_statNone (env : Env) (opts : Options) (inputDir outputDir : String)
    (wbn : List String) (r : Results) (file : String)
    (hstat : env.statSize (joinPath inputDir file) = none) :
    processOne env opts inputDir outputDir wbn r file =
      { r with errors := r.errors ++ [(file, env.errMsg file)] } := by
  unfold processOne
  simp only [hstat]

/-- When skip-existing fires, the step only adds the input size to
`totalSize`. -/
theorem processOne_skip (env : Env) (opts : Options) (inputDir outputDir : String)
    (wbn : List String) (r : Results) (file : String) (sz : Nat)
    (hstat : env.statSize (joinPath inputDir file) = some sz)
    (hskip : (opts.skipExisting && env.outExists (joinPath outputDir (outputFileNameOf opts file))) = true) :
    processOne env opts inputDir outputDir wbn r file = { r with totalSize := r.totalSize + sz } := by
  unfold processOne
  simp only [hstat, hskip, if_true]

/-- No step changes `totalFiles`. -/
theorem processOne_totalFiles (env : Env) (opts : Options) (inputDir outputDir : String)
    (wbn : List String) (r : Results) (file : String) :
    (processOne env opts inputDir outputDir wbn r file).totalFiles = r.totalFiles := by
  unfold processOne singleOptimize
  dsimp only
  repeat' split
  all_goals rfl

/-- No step changes the ignored-files counter. -/
theorem processOne_ignoredFiles (env : Env) (opts : Options) (inputDir outputDir : String)
    (wbn : List String) (r : Results) (file : String) :
    (processOne env opts inputDir outputDir wbn r file).ignoredFiles = r.ignoredFiles := by
  unfold processOne singleOptimize
  dsimp only
  repeat' split
  all_goals rfl

/-- Every step leaves the error list unchanged or appends exactly the one
record for its own file. -/
theorem processOne_errors (env : Env) (opts : Options) (inputDir outputDir : String)
    (wbn : List String) (r : Results) (file : String) :
    (processOne env opts inputDir outputDir wbn r file).errors = r.errors ∨
    (processOne env opts inputDir outputDir wbn r file).errors = r.errors ++ [(file, env.errMsg file)] := by
  unfold processOne singleOptimize
  dsimp only
  repeat' split
  all_goals first | exact Or.inl rfl | exact Or.inr rfl

/-- When skip-existing does not fire, the step never equals the bare
skip-existing record. -/
theorem processOne_ne_skip (env : Env) (opts : Options) (inputDir outputDir : String)
    (wbn : List String) (r : Results) (file : String) (sz : Nat)
    (hstat : env.statSize (joinPath inputDir file) = some sz)
    (hskip : (opts.skipExisting && env.outExists (joinPath outputDir (outputFileNameOf opts file))) = false) :
    processOne env opts inputDir outputDir wbn r file ≠ { r with totalSize := r.totalSize + sz } := by
  unfold processOne singleOptimize
  simp only [hstat, hskip, Bool.false_eq_true, if_false]
  repeat' split
  all_goals intro h
  all_goals first
    | (have h2 := congrArg Results.skippedImages h; simp at h2; done)
    | (have h2 := congrArg Results.multiSizeImages h; simp at h2; done)
    | (have h2 := congrArg Results.optimizedImages h; simp at h2; done)
    | (have h2 := congrArg Results.copiedFiles h; simp at h2; done)
    | (have h2 := congrArg (fun x => x.errors.length) h; simp at h2; done)

/-- Without a matching WebP base name the skipped-images counter is
untouched. -/
theorem processOne_skippedImages_unchanged (env : Env) (opts : Options) (inputDir outputDir : String)
    (wbn : List String) (r : Results) (file : String) (sz : Nat)
    (hstat : env.statSize (joinPath inputDir file) = some sz)
    (hskip : (opts.skipExisting && env.outExists (joinPath outputDir (outputFileNameOf opts file))) = false)
    (hcont : wbn.contains (basenameExt file (lowerStr (extname file))) = false) :
    (processOne env opts inputDir outputDir wbn r file).skippedImages = r.skippedImages := by
  unfold processOne singleOptimize
  simp only [hstat, hskip, hcont, Bool.false_eq_true, if_false]
  repeat' split
  all_goals rfl

/-- With a matching WebP base name an image candidate is counted as skipped
and produces nothing else. -/
theorem processOne_shadow (env : Env) (opts : Options) (inputDir outputDir : String)
    (wbn : List String) (r : Results) (file : String) (sz : Nat)
    (hstat : env.statSize (joinPath inputDir file) = some sz)
    (hskip : (opts.skipExisting && env.outExists (joinPath outputDir (outputFileNameOf opts file))) = false)
    (hext : jpgPngExts.contains (lowerStr (extname file)) = true)
    (hcont : wbn.contains (basenameExt file (lowerStr (extname file))) = true) :
    processOne env opts inputDir outputDir wbn r file =
      { r with totalSize := r.totalSize + sz, skippedImages := r.skippedImages + 1 } := by
  unfold processOne
  simp only [hstat, hskip, hext, hcont, Bool.false_eq_true, if_false, if_true]

/-- The per-size loop accumulates a clamped, hence nonnegative, saving. -/
theorem msLoop_saved_nonneg (env : Env) (opts : Options) (rz : ResizeOpts)
    (inputFile outDirAbs baseNameToUse ext : String) (origSize : Nat) :
    ∀ (sizes : List Nat) (c : Nat) (s : Int),
      msLoop env opts rz inputFile outDirAbs baseNameToUse ext origSize sizes = some (c, s) →
      0 ≤ s := by
  intro sizes
  induction sizes with
  | nil =>
    intro c s h
    simp only [msLoop, Option.some.injEq, Prod.mk.injEq] at h
    omega
  | cons size rest ih =>
    intro c s h
    simp only [msLoop] at h
    by_cases hw : env.writeOk inputFile (joinPath outDirAbs (msOutputName opts rz baseNameToUse ext size)) = true
    · rw [if_pos hw] at h
      by_cases ho : opts.onlyResize = true
      · rw [if_pos ho] at h
        exact ih c s h
      · rw [if_neg ho] at h
        rcases hso : env.statOut (joinPath outDirAbs (msOutputName opts rz baseNameToUse ext size)) with _ | osz
        · rw [hso] at h
          simp at h
        · rw [hso] at h
          rcases hrec : msLoop env opts rz inputFile outDirAbs baseNameToUse ext origSize rest with _ | ⟨c2, t⟩
          · rw [hrec] at h
            simp at h
          · rw [hrec] at h
            simp only [Option.some.injEq, Prod.mk.injEq] at h
            have ht := ih c2 t hrec
            have hm : (0 : Int) ≤ max 0 ((origSize : Int) - (osz : Int)) := le_max_left 0 _
            omega
    · rw [if_neg hw] at h
      simp at h

/-- The foldl of steps never changes `totalFiles`. -/
theorem foldl_processOne_totalFiles (env : Env) (opts : Options) (inputDir outputDir : String)
    (wbn : List String) :
    ∀ (fs : List String) (r : Results),
      (fs.foldl (processOne env opts inputDir outputDir wbn) r).totalFiles = r.totalFiles := by
  intro fs
  induction fs with
  | nil => intro r; rfl
  | cons a t ih =>
    intro r
    rw [List.foldl_cons, ih, processOne_totalFiles]

/-- The foldl of steps never changes the ignored-files counter. -/
theorem foldl_processOne_ignoredFiles (env : Env) (opts : Options) (inputDir outputDir : String)
    (wbn : List String) :
    ∀ (fs : List String) (r : Results),
      (fs.foldl (processOne env opts inputDir outputDir wbn) r).ignoredFiles = r.ignoredFiles := by
  intro fs
  induction fs with
  | nil => intro r; rfl
  | cons a t ih =>
    intro r
    rw [List.foldl_cons, ih, processOne_ignoredFiles]

/-- A boolean filter and its complement partition a list's length. -/
theorem length_filter_partition (q : String → Bool) (l : List String) :
    (l.filter (fun f => !(q f))).length + (l.filter q).length = l.length := by
  induction l with
  | nil => rfl
  | cons a t ih =>
    by_cases ha : q a = true
    · simp [List.filter_cons, ha] <;> omega
    · rw [Bool.not_eq_true] at ha
      simp [List.filter_cons, ha] <;> omega

/-- Kept and ignored candidates partition the enumerated listing. -/
theorem filesList_length_partition (env : Env) (opts : Options) (allFiles : List String) :
    (filesList env opts allFiles).length + (ignoredList env opts allFiles).length = allFiles.length := by
  unfold filesList ignoredList
  by_cases hp : opts.ignorePatterns.isEmpty = true
  · simp [hp]
  · rw [Bool.not_eq_true] at hp
    simp only [hp, Bool.false_eq_true, if_false]
    have hcong : allFiles.filter (fun f => !((allFiles.filter (matchesAny env opts)).contains f)) =
        allFiles.filter (fun f => !(matchesAny env opts f)) := by
      apply List.filter_congr
      intro x hx
      by_cases hm : matchesAny env opts x = true
      · have hmem : (allFiles.filter (matchesAny env opts)).contains x = true := by
          simpa [List.elem_iff] using List.mem_filter.mpr ⟨hx, hm⟩
        rw [hmem, hm]
      · rw [Bool.not_eq_true] at hm
        have hnmem : (allFiles.filter (matchesAny env opts)).contains x = false := by
          by_cases hc : (allFiles.filter (matchesAny env opts)).contains x = true
          · have := (List.mem_filter.mp (by simpa [List.elem_iff] using hc)).2
            rw [hm] at this
            cases this
          · rw [Bool.not_eq_true] at hc
            exact hc
        rw [hnmem, hm]
    rw [hcong, length_filter_partition]

/-- A candidate matching an ignore pattern lands in the ignored list and is
removed from the processed list. -/
theorem mem_ignored_not_files (env : Env) (opts : Options) (allFiles : List String) (f : String)
    (hf : f ∈ allFiles) (hm : matchesAny env opts f = true) :
    f ∈ ignoredList env opts allFiles ∧ f ∉ filesList env opts allFiles := by
  have hne : opts.ignorePatterns.isEmpty = false := by
    rcases hemp : opts.ignorePatterns with _ | ⟨p, ps⟩
    · rw [matchesAny, hemp] at hm
      simp at hm
    · rfl
  have hmem : f ∈ ignoredList env opts allFiles := by
    unfold ignoredList
    rw [hne]
    simp only [Bool.false_eq_true, if_false]
    exact List.mem_filter.mpr ⟨hf, hm⟩
  refine ⟨hmem, ?_⟩
  intro hcontra
  unfold filesList at hcontra
  rw [hne] at hcontra
  simp only [Bool.false_eq_true, if_false] at hcontra
  have h2 := (List.mem_filter.mp hcontra).2
  have h3 : (ignoredList env opts allFiles).contains f = true := by
    simpa [List.elem_iff] using hmem
  rw [h3] at h2
  cases h2

/-- Claim C1 counterexample: in the single-file optimize path the byte delta
is not clamped — with an input of 10 bytes and an optimized output of 25
bytes the run's `totalSaved` is the negative raw delta, so a growing file
decreases `totalSaved`. -/
theorem single_saved_not_clamped :
    (processDirectory envGrow opts0 "in" "out" ["a.jpg"]).totalSaved = -15 ∧
    (processDirectory envGrow opts0 "in" "out" ["a.jpg"]).totalSaved < 0 := by
  exact ⟨by decide, by decide⟩

/-- Claim C1 (amended): only the multi-size path clamps — every per-size
delta there is clamped to at least zero before summing, so a successful
multi-size fan-out always contributes a nonnegative amount to `totalSaved`;
the single-file optimize path adds the raw, possibly negative, delta (see
the counterexample). -/
theorem multi_size_saved_nonneg (env : Env) (opts : Options) (rz : ResizeOpts)
    (sizes : List Nat) (inputFile outDirAbs baseName ext : String) (slugBase : Option String)
    (c : Nat) (s : Int)
    (h : processMultiSize env opts rz sizes inputFile outDirAbs baseName ext slugBase = some (c, s)) :
    0 ≤ s := by
  unfold processMultiSize at h
  by_cases hmeta : env.metadataOk inputFile = true
  · rw [if_pos hmeta] at h
    rcases hs : env.statSize inputFile with _ | origSize
    · rw [hs] at h
      simp at h
    · rw [hs] at h
      dsimp only at h
      exact msLoop_saved_nonneg env opts rz inputFile outDirAbs _ ext origSize sizes c s h
  · rw [if_neg hmeta] at h
    simp at h

/-- Claim C1 witness: a concrete multi-size run whose output grew still
contributes zero, not a negative amount. -/
theorem multi_size_saved_nonneg_witness :
    processMultiSize envGrow opts0 rzOne [100] "in/a.jpg" "out" "a" ".jpg" none = some (1, 0) ∧
    (0 : Int) ≤ 0 :=
  ⟨by decide,
   multi_size_saved_nonneg envGrow opts0 rzOne [100] "in/a.jpg" "out" "a" ".jpg" none 1 0 (by decide)⟩

/-- Claim C2 counterexample: with candidates `a/logo.jpg` and `b/logo.webp`
the jpeg is shadow-skipped although no sibling WebP exists in its own
directory — the code's shadow set ignores directories. -/
theorem webp_shadow_cross_directory :
    (processDirectory envOk opts0 "in" "out" crossDirFiles).skippedImages = 1 ∧
    (processDirectory envOk opts0 "in" "out" crossDirFiles).optimizedImages = 0 ∧
    (processDirectory envOk opts0 "in" "out" crossDirFiles).copiedFiles = 1 ∧
    claimSiblingWebp crossDirFiles "a/logo.jpg" = false := by
  refine ⟨by decide, by decide, by decide, by decide⟩

/-- Claim C2 (amended): a jpeg/png candidate that is neither stat-failed nor
skip-existing is shadow-skipped (counted in `skippedImages`, producing no
other outcome) exactly when some `.webp` candidate anywhere in the run —
not necessarily a sibling in the same directory — has the same
extension-stripped base name; a `.webp` candidate itself never reaches the
shadow branch and is copied via the non-image path. -/
theorem webp_shadow_global_iff (env : Env) (opts : Options) (inputDir outputDir : String)
    (files : List String) (r : Results) (file : String) (sz : Nat)
    (hstat : env.statSize (joinPath inputDir file) = some sz)
    (hskip : (opts.skipExisting && env.outExists (joinPath outputDir (outputFileNameOf opts file))) = false)
    (hext : jpgPngExts.contains (lowerStr (extname file)) = true) :
    processOne env opts inputDir outputDir (webpBaseNamesOf files) r file =
        { r with totalSize := r.totalSize + sz, skippedImages := r.skippedImages + 1 } ↔
      (webpBaseNamesOf files).contains (basenameExt file (lowerStr (extname file))) = true := by
  constructor
  · intro h
    by_cases hcont : (webpBaseNamesOf files).contains (basenameExt file (lowerStr (extname file))) = true
    · exact hcont
    · rw [Bool.not_eq_true] at hcont
      have hu := processOne_skippedImages_unchanged env opts inputDir outputDir
        (webpBaseNamesOf files) r file sz hstat hskip hcont
      rw [h] at hu
      simp at hu
  · intro hcont
    exact processOne_shadow env opts inputDir outputDir (webpBaseNamesOf files) r file sz
      hstat hskip hext hcont

/-- Claim C2 witness: the cross-directory pair instantiates the amended
equivalence — the global base-name condition holds and the jpeg is
shadow-skipped. -/
theorem webp_shadow_global_iff_witness :
    processOne envOk opts0 "in" "out" (webpBaseNamesOf crossDirFiles) {} "a/logo.jpg" =
      { ({} : Results) with totalSize := ({} : Results).totalSize + 10,
                            skippedImages := ({} : Results).skippedImages + 1 } :=
  (webp_shadow_global_iff envOk opts0 "in" "out" crossDirFiles {} "a/logo.jpg" 10
    (by decide) (by decide) (by decide)).mpr (by decide)

/-- Claim C3 counterexample: with conversion on, skip-existing checks the
path with the original extension, not the `.webp` destination the run
actually writes — here `out/photo.webp` exists, the flag is on, and the
candidate is still optimized rather than skipped. -/
theorem skip_existing_misses_converted_destination :
    (processDirectory envWebpOut optsWebpSkip "in" "out" ["photo.jpg"]).optimizedImages = 1 ∧
    (processDirectory envWebpOut optsWebpSkip "in" "out" ["photo.jpg"]).totalSaved = 6 ∧
    envWebpOut.outExists (singleOutputPath optsWebpSkip
      (joinPath "out" (outputFileNameOf optsWebpSkip "photo.jpg"))
      (joinPath "out" (dirname "photo.jpg"))
      (basenameExt "photo.jpg" (lowerStr (extname "photo.jpg")))) = true ∧
    optsWebpSkip.skipExisting = true := by
  refine ⟨by decide, by decide, by decide, by decide⟩

/-- Claim C3 (amended): a candidate is classified existing-skipped exactly
when the skip-existing flag is on and an output exists at the mirrored
destination computed from the candidate's own name — slugified when
slugification is enabled, but always carrying the original extension, even
when conversion would write a `.webp` file elsewhere. -/
theorem skip_existing_premapped_iff (env : Env) (opts : Options) (inputDir outputDir : String)
    (wbn : List String) (r : Results) (file : String) (sz : Nat)
    (hstat : env.statSize (joinPath inputDir file) = some sz) :
    processOne env opts inputDir outputDir wbn r file = { r with totalSize := r.totalSize + sz } ↔
      (opts.skipExisting && env.outExists (joinPath outputDir (outputFileNameOf opts file))) = true := by
  constructor
  · intro h
    by_cases hc : (opts.skipExisting && env.outExists (joinPath outputDir (outputFileNameOf opts file))) = true
    · exact hc
    · rw [Bool.not_eq_true] at hc
      exact absurd h (processOne_ne_skip env opts inputDir outputDir wbn r file sz hstat hc)
  · intro hc
    exact processOne_skip env opts inputDir outputDir wbn r file sz hstat hc

/-- Claim C3 witness: a concrete candidate whose mirrored destination exists
is reduced to the bare totalSize update. -/
theorem skip_existing_premapped_iff_witness :
    processOne envAOut optsSkip "in" "out" [] {} "a.jpg" =
      { ({} : Results) with totalSize := ({} : Results).totalSize + 7 } :=
  (skip_existing_premapped_iff envAOut optsSkip "in" "out" [] {} "a.jpg" 7
    (by decide)).mpr (by decide)

/-- Claim C6: for sizes 200, 400, 800 with the default suffix pattern on
`hero.png`, the fan-out produces exactly `hero-200.png`, `hero-400.png`,
`hero-800.png` in the declared order (`.webp` instead when conversion is
on), every resize request carries the target width, forbids enlargement
past the original width, and the run counts one multi-size image with three
optimized outputs. -/
theorem multi_size_fanout_names :
    ([200, 400, 800].map (msOutputName opts0 rzFan "hero" ".png") =
      ["hero-200.png", "hero-400.png", "hero-800.png"]) ∧
    ([200, 400, 800].map (msOutputName optsWebp rzFan "hero" ".png") =
      ["hero-200.webp", "hero-400.webp", "hero-800.webp"]) ∧
    ([200, 400, 800].map (fun s => (msResizeRequest rzFan s).withoutEnlargement) =
      [true, true, true]) ∧
    ([200, 400, 800].map (fun s => (msResizeRequest rzFan s).width) = [200, 400, 800]) ∧
    (processDirectory envOk optsFan "in" "out" ["hero.png"]).multiSizeImages = 1 ∧
    (processDirectory envOk optsFan "in" "out" ["hero.png"]).optimizedImages = 3 := by
  refine ⟨by decide, by decide, by decide, by decide, by decide, by decide⟩

/-- Claim C7: ignore wins over skip-existing — a candidate that matches an
ignore pattern, with the skip-existing flag on and its mirrored destination
present, still lands in the ignored list and is excluded from the processed
list before any skip-existing or shadow check can run. -/
theorem ignore_beats_skip_existing (env : Env) (opts : Options) (outputDir : String)
    (allFiles : List String) (f : String)
    (hf : f ∈ allFiles)
    (hmatch : matchesAny env opts f = true)
    (_hskipflag : opts.skipExisting = true)
    (_hexists : env.outExists (joinPath outputDir (outputFileNameOf opts f)) = true) :
    f ∈ ignoredList env opts allFiles ∧ f ∉ filesList env opts allFiles :=
  mem_ignored_not_files env opts allFiles f hf hmatch

/-- Claim C7 witness: a concrete matching candidate with an existing
destination is ignored, not skip-existing-classified. -/
theorem ignore_beats_skip_existing_witness :
    "x.jpg" ∈ ignoredList envMatch optsIgn ["x.jpg"] ∧
    "x.jpg" ∉ filesList envMatch optsIgn ["x.jpg"] :=
  ignore_beats_skip_existing envMatch optsIgn "out" ["x.jpg"] "x.jpg"
    (by decide) (by decide) (by decide) (by decide)

/-- Claim C8: a per-file failure never aborts the run — every step appends
at most its own single `(file, message)` record and the fold continues, and
concretely ten jpeg candidates with one failing write yield nine optimized
outcomes, one error entry, and a total file count of ten. -/
theorem per_file_errors_isolated :
    (∀ (env : Env) (opts : Options) (inputDir outputDir : String) (wbn : List String)
        (r : Results) (file : String),
      (processOne env opts inputDir outputDir wbn r file).errors = r.errors ∨
      (processOne env opts inputDir outputDir wbn r file).errors =
        r.errors ++ [(file, env.errMsg file)]) ∧
    (processDirectory envOneBad opts0 "in" "out" tenFiles).totalFiles = 10 ∧
    (processDirectory envOneBad opts0 "in" "out" tenFiles).optimizedImages = 9 ∧
    (processDirectory envOneBad opts0 "in" "out" tenFiles).errors = [("f3.jpg", "error")] := by
  refine ⟨fun env opts inputDir outputDir wbn r file =>
    processOne_errors env opts inputDir outputDir wbn r file, by decide, by decide, by decide⟩

/-- Claim C9: a skip-existing candidate adds its byte size to `totalSize`
and is already counted in `totalFiles`, but increments no outcome counter —
so the counters can sum to strictly less than `totalFiles`, as in the
concrete two-file run where one candidate is skipped. -/
theorem skip_existing_accounting :
    (∀ (env : Env) (opts : Options) (inputDir outputDir : String) (wbn : List String)
        (r : Results) (file : String) (sz : Nat),
      env.statSize (joinPath inputDir file) = some sz →
      (opts.skipExisting && env.outExists (joinPath outputDir (outputFileNameOf opts file))) = true →
      processOne env opts inputDir outputDir wbn r file = { r with totalSize := r.totalSize + sz }) ∧
    (processDirectory envAOut optsSkip "in" "out" ["a.jpg", "b.jpg"]).totalFiles = 2 ∧
    (processDirectory envAOut optsSkip "in" "out" ["a.jpg", "b.jpg"]).totalSize = 14 ∧
    (processDirectory envAOut optsSkip "in" "out" ["a.jpg", "b.jpg"]).optimizedImages +
      (processDirectory envAOut optsSkip "in" "out" ["a.jpg", "b.jpg"]).resizedImages +
      (processDirectory envAOut optsSkip "in" "out" ["a.jpg", "b.jpg"]).multiSizeImages +
      (processDirectory envAOut optsSkip "in" "out" ["a.jpg", "b.jpg"]).copiedFiles +
      (processDirectory envAOut optsSkip "in" "out" ["a.jpg", "b.jpg"]).skippedImages +
      (processDirectory envAOut optsSkip "in" "out" ["a.jpg", "b.jpg"]).ignoredFiles = 1 := by
  refine ⟨fun env opts inputDir outputDir wbn r file sz hstat hskip =>
    processOne_skip env opts inputDir outputDir wbn r file sz hstat hskip,
    by decide, by decide, by decide⟩

/-- Claim C9 witness: the skip step of the concrete run is exactly the bare
totalSize update. -/
theorem skip_existing_accounting_witness :
    processOne envAOut optsSkip "in" "out" [] {} "a.jpg" =
      { ({} : Results) with totalSize := ({} : Results).totalSize + 7 } :=
  skip_existing_accounting.1 envAOut optsSkip "in" "out" [] {} "a.jpg" 7
    (by decide) (by decide)

/-- Claim C10: `totalFiles` counts only non-ignored candidates — the run's
`totalFiles` plus its `ignoredFiles` equals the number of enumerated files,
and a candidate matching an ignore pattern is removed from the processed
list before any statistic other than the ignored count can see it. -/
theorem ignored_files_partition :
    (∀ (env : Env) (opts : Options) (inputDir outputDir : String) (allFiles : List String),
      (processDirectory env opts inputDir outputDir allFiles).totalFiles +
        (processDirectory env opts inputDir outputDir allFiles).ignoredFiles =
        allFiles.length) ∧
    (∀ (env : Env) (opts : Options) (allFiles : List String) (f : String),
      f ∈ allFiles → matchesAny env opts f = true → f ∉ filesList env opts allFiles) := by
  constructor
  · intro env opts inputDir outputDir allFiles
    unfold processDirectory
    dsimp only
    rw [foldl_processOne_totalFiles, foldl_processOne_ignoredFiles]
    exact filesList_length_partition env opts allFiles
  · intro env opts allFiles f hf hm
    exact (mem_ignored_not_files env opts allFiles f hf hm).2

/-- Claim C10 witness: the concrete matching candidate is absent from the
processed list. -/
theorem ignored_files_partition_witness :
    "x.jpg" ∉ filesList envMatch optsIgn ["x.jpg"] :=
  ignored_files_partition.2 envMatch optsIgn ["x.jpg"] "x.jpg" (by decide) (by decide)

end Optiweb
